import Mathlib

/-!
# Verification of the frame cache (`fiftyone/core/frame.py`)

A shallow embedding of the lazily-materialized, ordinally-indexed,
deferred-write frame cache (`Frames` / `FramesView`) over a per-sample
slice of the frame collection, together with proofs of the spec's claims.

Modelling conventions:

* One parent sample is modelled; the store (`FramesState.store`) is the
  slice of the frame collection matching `_sample_id`, so Mongo filters on
  `_sample_id` are implicit.
* Python object identity is modelled by an `ident : Nat` tag on records;
  the cache state carries a `nextId` counter and every record construction
  (`Frame()`, `Frame.from_doc`, `Frame.copy`) consumes a fresh tag.
* In-place mutation of a record (`_set_backing_doc`, `set_field`) is
  modelled by producing a record with the *same* `ident`.
* Field values are opaque payloads, modelled as `Int`.
-/

set_option autoImplicit false

namespace Fiftyone

/-- Opaque field values held in a record's field bag. -/
abbrev FieldVal := Int

/-- A field bag: an ordered association of public field names to values.
The system fields `_sample_id` (implicit: single parent) and
`frame_number` (a structure member of `Frame`/`Doc`) are kept outside
the bag. -/
abbrev Fields := List (String × FieldVal)

/-- Modelled from the spec: `Document.set_field` of the record contract
("mutated via field set/get") — set or create a named field in a bag. -/
def setField (fs : Fields) (name : String) (v : FieldVal) : Fields :=
  if fs.any (fun p => p.1 = name) then
    fs.map (fun p => if p.1 = name then (name, v) else p)
  else
    fs ++ [(name, v)]

/-- Copy every field of a bag into an (initially empty) target via
`set_field`, as the `for field, value in frame.iter_fields()` loops do. -/
def copyFields (src : Fields) : Fields :=
  src.foldl (fun acc p => setField acc p.1 p.2) []

/-- Kind tag distinguishing `Frame` records from `FrameView` records. -/
inductive RecordKind where
  | frame
  | frameView
  deriving DecidableEq, Repr

/-- An in-memory record (`Frame` or `FrameView`).

`ident` models Python object identity; `doc_id` is the store-assigned id
of the backing document (`_id`), absent until first persisted;
`dataset_doc` records whether the backing document is a dataset document
(as opposed to a `NoDatasetFrameSampleDocument`). -/
structure Frame where
  ident : Nat
  kind : RecordKind
  doc_id : Option Nat
  frame_number : Int
  fields : Fields
  dataset_doc : Bool
  deriving DecidableEq, Repr

/-- Modelled from the spec: `Document._in_db` (the `document.py` module is
not in the sources) — "`backed` (has been persisted at least once) vs
`transient`": a record is backed exactly when its backing document carries
a store-assigned id. -/
def Frame.inDb (f : Frame) : Bool := f.doc_id.isSome

/-- A document of the frame collection (restricted to this sample): the
store-assigned `_id` (if any), the `frame_number` key, and the field bag. -/
structure Doc where
  id : Option Nat
  frame_number : Int
  fields : Fields
  deriving DecidableEq, Repr

/-- Modelled from the spec: `Frame._set_backing_doc` — bind a freshly
built dataset document onto a record in place (same identity): the record
takes the document's id, key and fields and becomes dataset-backed. -/
def setBackingDoc (f : Frame) (d : Doc) : Frame :=
  { f with doc_id := d.id, frame_number := d.frame_number,
           fields := d.fields, dataset_doc := true }

/-- Modelled from the spec: `Document.copy` — "if the incoming record was
itself store-backed, clone it first (never alias a persisted record into
pending state)": a fresh transient record with the same contents. -/
def frameCopy (nextId : Nat) (f : Frame) : Frame :=
  { f with ident := nextId, doc_id := none, dataset_doc := false }

/-! ## The replacements dictionary

`Frames._replacements` is a Python `dict` keyed by frame number; it is
modelled as an association list with the usual dictionary operations. -/

/-- Dictionary lookup (`self._replacements[k]` / `k in self._replacements`). -/
def alookup : List (Int × Frame) → Int → Option Frame
  | [], _ => none
  | (k', f) :: rest, k => if k' = k then some f else alookup rest k

/-- Dictionary store (`self._replacements[k] = frame`). -/
def ainsert : List (Int × Frame) → Int → Frame → List (Int × Frame)
  | [], k, f => [(k, f)]
  | (k', f') :: rest, k, f =>
      if k' = k then (k, f) :: rest else (k', f') :: ainsert rest k f

/-- Dictionary removal (`self._replacements.pop(k, None)`). -/
def aerase (l : List (Int × Frame)) (k : Int) : List (Int × Frame) :=
  l.filter (fun p => decide (p.1 ≠ k))

/-- Dictionary keys. -/
def akeys (l : List (Int × Frame)) : List Int := l.map Prod.fst

/-- Dictionary update (`d.update(d2)`): entries of `l2` win. -/
def aupdate (l l2 : List (Int × Frame)) : List (Int × Frame) :=
  l2.foldl (fun acc p => ainsert acc p.1 p.2) l

/-! ## Cache state -/

/-- The state of one `Frames` (or `FramesView`) cache instance, together
with the store slice and the process-wide singleton registry it interacts
with.

`registry` — modelled from the spec (§5, the `singletons.py` module is not
in the sources): the process-wide registry of other live in-memory `Frame`
instances for this parent, as returned by `Frame._get_instances`, keyed by
frame number. -/
structure FramesState where
  replacements : List (Int × Frame)
  delete_frames : Finset Int
  delete_all : Bool
  sample_in_db : Bool
  store : List Doc
  registry : List (Int × Frame)
  nextId : Nat
  nextDocId : Nat
  deriving DecidableEq

/-- Modelled from the spec: `fiftyone.core.frame_utils.validate_frame_number`
(the `frame_utils.py` module is not in the sources) — "InvalidKey:
non-positive or non-integer ordinal key"; keys are `Int` here, so validity
is positivity. -/
def isFrameNumber (k : Int) : Bool := 1 ≤ k

/-- Errors surfaced by cache operations. -/
inductive Err where
  /-- Models `FrameError` raised by `validate_frame_number`. -/
  | frameError (k : Int)
  /-- Models `ValueError(msg)`. -/
  | valueError (msg : String)
  /-- A raw `pymongo.errors.BulkWriteError` carrying the write-error
  messages of the failed batch. -/
  | bulkWriteError (msgs : List String)
  deriving DecidableEq, Repr

/-- Models `Frames._get_frame_numbers`. -/
def getFrameNumbers (s : FramesState) : Finset Int :=
  let frame_numbers := (akeys s.replacements).toFinset
  if ¬s.sample_in_db ∨ s.delete_all then frame_numbers
  else (frame_numbers ∪ (s.store.map (fun d => d.frame_number)).toFinset)
    \ s.delete_frames

/-- Models `Frames.__len__`. -/
def lenOf (s : FramesState) : Nat := (getFrameNumbers s).card

/-- Models `Frames.__contains__`. -/
def containsOf (s : FramesState) (k : Int) : Prop := k ∈ getFrameNumbers s

instance (s : FramesState) (k : Int) : Decidable (containsOf s k) := by
  unfold containsOf; infer_instance

/-- Models `Frames.keys`: the effective frame numbers in ascending order. -/
def keysOf (s : FramesState) : List Int :=
  (getFrameNumbers s).sort (· ≤ ·)

/-- Models `Frames._get_frame_db`: `find_one` on the frame collection. -/
def getFrameDb (s : FramesState) (k : Int) : Option Doc :=
  s.store.find? (fun d => decide (d.frame_number = k))

/-- Models `Frames._make_frame`: `_frame_dict_to_doc` followed by
`Frame.from_doc` — materialize a store dict into a fresh dataset-backed
`Frame` instance. -/
def makeFrame (nextId : Nat) (d : Doc) : Frame :=
  ⟨nextId, .frame, d.id, d.frame_number, d.fields, true⟩

/-- Models `Frames._set_replacement`. -/
def setReplacement (s : FramesState) (f : Frame) : FramesState :=
  { s with replacements := ainsert s.replacements f.frame_number f }

/-- Models `Frames.__getitem__`. -/
def getFrame (s : FramesState) (k : Int) : Except Err (Frame × FramesState) :=
  if ¬ isFrameNumber k then .error (.frameError k)
  else
    match alookup s.replacements k with
    | some f => .ok (f, s)
    | none =>
      if ¬ s.sample_in_db then
        -- `Frame(frame_number=frame_number)`: an empty transient frame
        let f : Frame := ⟨s.nextId, .frame, none, k, [], false⟩
        let s := { s with nextId := s.nextId + 1 }
        .ok (f, setReplacement s f)
      else
        let d? : Option Doc :=
          if s.delete_all ∨ k ∈ s.delete_frames then none
          else getFrameDb s k
        -- on a miss, the minimal bag `{_sample_id, frame_number}`
        let d : Doc := d?.getD ⟨none, k, []⟩
        let f : Frame := makeFrame s.nextId d
        let s := { s with nextId := s.nextId + 1 }
        .ok (f, setReplacement s f)

/-- Models `Frames.__delitem__`. -/
def delFrame (s : FramesState) (k : Int) : FramesState :=
  let s := { s with replacements := aerase s.replacements k }
  if ¬ s.sample_in_db then s
  else { s with delete_frames := insert k s.delete_frames }

/-- Models `Frames.add_frame` (the `expand_schema` flag is not modelled: the
schema/field-metadata system is out of scope, so expansion always
succeeds; the `isinstance` check cannot fail in this typed embedding). -/
def addFrame (s : FramesState) (fn : Int) (frame : Frame) :
    Except Err FramesState :=
  if ¬ isFrameNumber fn then .error (.frameError fn)
  else if s.sample_in_db then
    -- `_frame = frame; if frame._in_db: frame = Frame()`
    let base : Frame :=
      if frame.inDb then ⟨s.nextId, .frame, none, 0, [], false⟩ else frame
    let s := if frame.inDb then { s with nextId := s.nextId + 1 } else s
    -- `d = {"_sample_id": ...}; doc = _frame_dict_to_doc(d)`, copy the
    -- incoming record's fields, then force the key field
    let doc : Doc := ⟨none, fn, copyFields frame.fields⟩
    let staged := setBackingDoc base doc
    .ok (setReplacement s staged)
  else
    let base : Frame := if frame.inDb then frameCopy s.nextId frame else frame
    let s := if frame.inDb then { s with nextId := s.nextId + 1 } else s
    let staged := { base with frame_number := fn }
    .ok (setReplacement s staged)

/-- Models `FramesView.add_frame`: always build a brand-new `FrameView` over an
id-less dataset document, copy the incoming record's fields across, force
the key field, and stage the new view. -/
def viewAddFrame (s : FramesState) (fn : Int) (frame : Frame) :
    Except Err FramesState :=
  if ¬ isFrameNumber fn then .error (.frameError fn)
  else
    -- `frame_view = self._make_frame({"_sample_id": ...})`
    let fv : Frame := ⟨s.nextId, .frameView, none, 0, [], true⟩
    let s := { s with nextId := s.nextId + 1 }
    let fv := { fv with fields := copyFields frame.fields }
    let fv := { fv with frame_number := fn }
    .ok (setReplacement s fv)

/-- Models `Frames.clear`. -/
def clearFrames (s : FramesState) : FramesState :=
  let s := { s with replacements := [] }
  if ¬ s.sample_in_db then s
  else { s with delete_all := true, delete_frames := ∅ }

/-- Modelled from the spec: `Frame._sync_docs_for_sample` (the
`singletons.py` module is not in the sources) — "re-synchronize any live
in-memory Record instances for this parent against current store contents
(discarding uncommitted local edits)": registered records whose key is
still stored are rebound to the stored document, the others are dropped. -/
def syncDocsForSample (store : List Doc) (registry : List (Int × Frame)) :
    List (Int × Frame) :=
  registry.filterMap (fun p =>
    match store.find? (fun d => decide (d.frame_number = p.1)) with
    | some d => some (p.1, setBackingDoc p.2 d)
    | none => none)

/-- Models `Frames.reload` (the `hard` schema-reload flag is not modelled: the
schema system is out of scope). -/
def reloadFrames (s : FramesState) : FramesState :=
  let s := { s with delete_all := false, delete_frames := ∅,
                    replacements := [] }
  { s with registry := syncDocsForSample s.store s.registry }

/-- Models `FramesView.reload`: clear the pending state only. -/
def viewReload (s : FramesState) : FramesState :=
  { s with delete_all := false, delete_frames := ∅, replacements := [] }

/-! ## Flush

Exceptions are modelled by `Except (Err × FramesState)`: a raised error
carries the state the instance holds at the raise point.  The outcome of
each bulk store call is injected through a `StoreOracle`; a failing bulk
call reports the write-error messages of its batch (`BulkWriteError`
always carries at least one `writeErrors` entry here, hence the
`String × List String` encoding).  Partial application of a failed batch
is not modelled: a failed bulk call leaves the modelled store unchanged
(the spec documents partial application as a store-level risk, and no
claim observes the store after a failure). -/

/-- Outcomes of the bulk store calls a single flush can issue:
`bulk_write` of `DeleteOne`s, `insert_many`, and `bulk_write` of
`ReplaceOne`s.  `none` means success. -/
structure StoreOracle where
  deleteResult : Option (String × List String)
  insertResult : Option (String × List String)
  replaceResult : Option (String × List String)
  deriving DecidableEq, Repr

/-- The all-success oracle. -/
def successOracle : StoreOracle := ⟨none, none, none⟩

/-- Models `Frames._make_dict`: `to_mongo_dict`, drop `_id`, set `_sample_id`. -/
def makeDict (f : Frame) : Doc := ⟨none, f.frame_number, f.fields⟩

/-- Models `Frames._save_deletions`.  `delete_many` on the parent filter empties
the store slice; `Frame._reset_docs` / `Frame._reset_docs_for_sample` are
modelled from the spec ("invalidate any other in-memory holder of this
parent's records") as dropping the matching registry entries. -/
def saveDeletions (s : FramesState) (o : StoreOracle) :
    Except (Err × FramesState) FramesState :=
  let s :=
    if s.delete_all then
      { s with store := [], registry := [],
               delete_all := false, delete_frames := ∅ }
    else s
  if s.delete_frames = ∅ then .ok s
  else
    match o.deleteResult with
    | some e => .error (.bulkWriteError (e.1 :: e.2), s)
    | none =>
      .ok { s with
        store := s.store.filter
          (fun d => decide (d.frame_number ∉ s.delete_frames)),
        registry := s.registry.filter
          (fun p => decide (p.1 ∉ s.delete_frames)),
        delete_frames := ∅ }

/-- The dictionary of records a flush gathers for its write phase: the
union of the live singleton registry (when `include_singletons`) and this
cache's own pending replacements, the latter winning per key. -/
def pendingUnion (s : FramesState) (includeSingletons : Bool) :
    List (Int × Frame) :=
  if includeSingletons ∧ ¬ s.registry = [] then
    aupdate s.registry s.replacements
  else s.replacements

/-- The never-persisted records of a gathered dictionary, bound for the
batched insert. -/
def newFramesOf (repl : List (Int × Frame)) : List Frame :=
  (repl.map Prod.snd).filter (fun f => ¬ f.inDb)

/-- Models `insert_many`: append the dicts to the store slice, assigning
sequential fresh `_id`s. -/
def insertDocs (nextDocId : Nat) (dicts : List Doc) : List Doc :=
  dicts.enum.map (fun p => { p.2 with id := some (nextDocId + p.1) })

/-- One `ReplaceOne({frame_number, _sample_id}, d, upsert=True)`: replace
the first matching document (keeping its `_id`), or insert `d` with a
fresh id. -/
def applyReplaceOne (store : List Doc) (nextDocId : Nat) (fn : Int)
    (d : Doc) : List Doc × Nat :=
  if store.any (fun x => decide (x.frame_number = fn)) then
    (store.map (fun x =>
        if x.frame_number = fn then { d with id := x.id } else x),
     nextDocId)
  else (store ++ [{ d with id := some nextDocId }], nextDocId + 1)

/-- Models `Frames._save_replacements`.

Fidelity notes mirroring the source:
* when the singleton registry contributes instances, the gathered
  dictionary is a fresh dict and pops after the insert phase do not touch
  `self._replacements`; otherwise the gathered dictionary *aliases*
  `self._replacements` and the pops drain it;
* only `insert_many` is wrapped in a `try`: its `BulkWriteError` is
  re-raised as `ValueError(bwe.details["writeErrors"][0]["errmsg"])`,
  while a failing `bulk_write` of `ReplaceOne`s propagates raw;
* the id binding `insert_many` performs onto the in-memory records is not
  tracked through registry aliases (no claim observes it). -/
def saveReplacements (s : FramesState) (o : StoreOracle)
    (includeSingletons : Bool) : Except (Err × FramesState) FramesState :=
  let useSingletons := includeSingletons ∧ ¬ s.registry = []
  let repl := pendingUnion s includeSingletons
  if repl = [] then .ok s
  else
    let newFrames := newFramesOf repl
    let afterInsert : Except (Err × FramesState)
        (List (Int × Frame) × FramesState) :=
      if newFrames = [] then .ok (repl, s)
      else
        match o.insertResult with
        | some e => .error (.valueError e.1, s)
        | none =>
          let docs := insertDocs s.nextDocId (newFrames.map makeDict)
          let s' := { s with store := s.store ++ docs,
                             nextDocId := s.nextDocId + docs.length }
          let repl' := newFrames.foldl
            (fun acc f => aerase acc f.frame_number) repl
          let s' :=
            if useSingletons then s'
            else { s' with replacements := repl' }
          .ok (repl', s')
    match afterInsert with
    | .error e => .error e
    | .ok (repl', s') =>
      if repl' = [] then .ok { s' with replacements := [] }
      else
        match o.replaceResult with
        | some e => .error (.bulkWriteError (e.1 :: e.2), s')
        | none =>
          let sn := repl'.foldl
            (fun (acc : List Doc × Nat) p =>
              applyReplaceOne acc.1 acc.2 p.1 (makeDict p.2))
            (s'.store, s'.nextDocId)
          .ok { s' with store := sn.1, nextDocId := sn.2,
                        replacements := [] }

/-- Models `Frames.save`. -/
def saveFrames (s : FramesState) (o : StoreOracle) :
    Except (Err × FramesState) FramesState :=
  if ¬ s.sample_in_db then .ok s
  else
    match saveDeletions s o with
    | .error e => .error e
    | .ok s' => saveReplacements s' o true

/-! ## Ordered iteration

`Frames._iter_frames` is the sorted merge between the pending
replacements and the store-side ordered scan.  The db cursor is an
`Option Doc × List Doc` pair: the current document (`d`, `none` exactly
when `db_done` is set) and the remaining scan results. -/

/-- Models `Frames._iter_frames_db`: the `$match`/`$sort` pipeline — the store
slice in ascending `frame_number` order. -/
def iterFramesDb (s : FramesState) : List Doc :=
  List.insertionSort (fun a b => a.frame_number ≤ b.frame_number) s.store

/-- The inner cursor advance: `while d["frame_number"] < frame_number:
d = next(results)`, setting `db_done` (`none`) on exhaustion. -/
def advanceCursor (fn : Int) : Option Doc → List Doc →
    Option Doc × List Doc
  | none, rest => (none, rest)
  | some d, [] =>
    if d.frame_number < fn then (none, []) else (some d, [])
  | some d, d2 :: rest2 =>
    if d.frame_number < fn then advanceCursor fn (some d2) rest2
    else (some d, d2 :: rest2)

/-- The largest frame number in a nonempty cursor segment (for the
termination measure of the merge loop). -/
def cmax (d : Doc) (rest : List Doc) : Int :=
  rest.foldl (fun a x => max a x.frame_number) d.frame_number

/-- Termination measure of the merge loop: how far `frame_number` still
has to travel before both the replacement side and the db side are
exhausted. -/
def iterMeasure (m : Int) (replDone : Bool) (d? : Option Doc)
    (rest : List Doc) (fn : Int) : Nat :=
  (if replDone then 0 else (m + 1 - fn).toNat + 1) +
  (match d? with
   | none => 0
   | some d => (cmax d rest + 1 - fn).toNat + 1)

theorem foldl_max_mono {a b : Int} (rest : List Doc) (h : a ≤ b) :
    rest.foldl (fun a x => max a x.frame_number) a ≤
      rest.foldl (fun a x => max a x.frame_number) b := by
  induction rest generalizing a b with
  | nil => simpa using h
  | cons x r ih =>
    simp only [List.foldl_cons]
    exact ih (max_le_max_right _ h)

theorem le_foldl_max (a : Int) (rest : List Doc) :
    a ≤ rest.foldl (fun a x => max a x.frame_number) a := by
  induction rest generalizing a with
  | nil => simp
  | cons x r ih =>
    simp only [List.foldl_cons]
    exact le_trans (le_max_left _ _) (ih _)

theorem cmax_cons_tail_le (d x : Doc) (r : List Doc) :
    cmax x r ≤ cmax d (x :: r) := by
  unfold cmax
  simp only [List.foldl_cons]
  exact foldl_max_mono r (le_max_right _ _)

theorem self_le_cmax (d : Doc) (rest : List Doc) :
    d.frame_number ≤ cmax d rest := le_foldl_max _ _

theorem cmax_advanceCursor (fn : Int) (d : Doc) (rest : List Doc)
    (d2 : Doc) (rest2 : List Doc)
    (h : advanceCursor fn (some d) rest = (some d2, rest2)) :
    cmax d2 rest2 ≤ cmax d rest := by
  induction rest generalizing d with
  | nil =>
    rw [advanceCursor] at h
    by_cases hd : d.frame_number < fn
    · simp [hd] at h
    · simp only [if_neg hd, Prod.mk.injEq, Option.some.injEq] at h
      obtain ⟨h1, h2⟩ := h
      rw [← h1, ← h2]
  | cons x r ih =>
    rw [advanceCursor] at h
    by_cases hd : d.frame_number < fn
    · simp only [if_pos hd] at h
      exact le_trans (ih x h) (cmax_cons_tail_le d x r)
    · simp only [if_neg hd, Prod.mk.injEq, Option.some.injEq] at h
      obtain ⟨h1, h2⟩ := h
      rw [← h1, ← h2]

theorem advanceCursor_exhausts (fn : Int) (d : Doc) (rest : List Doc)
    (h : cmax d rest < fn) :
    advanceCursor fn (some d) rest = (none, []) := by
  induction rest generalizing d with
  | nil =>
    have hd : d.frame_number < fn := by simpa [cmax] using h
    rw [advanceCursor]
    simp [hd]
  | cons x r ih =>
    have hd : d.frame_number < fn :=
      lt_of_le_of_lt (self_le_cmax d (x :: r)) h
    rw [advanceCursor]
    simp only [if_pos hd]
    exact ih x (lt_of_le_of_lt (cmax_cons_tail_le d x r) h)

theorem iterMeasure_decreases (m fn : Int) (replDone : Bool)
    (d? : Option Doc) (rest : List Doc)
    (h : ¬(replDone = true ∧ d? = none)) :
    iterMeasure m (replDone || decide (m < fn + 1))
        (advanceCursor (fn + 1) d? rest).1
        (advanceCursor (fn + 1) d? rest).2 (fn + 1)
      < iterMeasure m replDone d? rest fn := by
  have hrepl : (if (replDone || decide (m < fn + 1)) = true then 0
      else (m + 1 - (fn + 1)).toNat + 1) ≤
      (if replDone = true then 0 else (m + 1 - fn).toNat + 1) := by
    by_cases h1 : replDone = true
    · simp [h1]
    · by_cases h2 : m < fn + 1 <;> simp [h1, h2]
  match hd : d? with
  | none =>
    have hr : replDone = false := by
      cases replDone
      · rfl
      · exact absurd ⟨rfl, rfl⟩ (hd ▸ h)
    subst hr
    simp only [advanceCursor, iterMeasure, Bool.false_or]
    by_cases h2 : m < fn + 1
    · simp [h2]
    · simp [h2]
      omega
  | some d =>
    have hdb1 : (1 : Nat) ≤ (cmax d rest + 1 - fn).toNat + 1 := by omega
    rcases ha : advanceCursor (fn + 1) (some d) rest with ⟨a1, a2⟩
    match a1 with
    | none =>
      simp only [iterMeasure, ha]
      omega
    | some d2 =>
      have hca : cmax d2 a2 ≤ cmax d rest := cmax_advanceCursor _ _ _ _ _ ha
      have hge : fn + 1 ≤ cmax d rest := by
        by_contra hlt
        rw [advanceCursor_exhausts (fn + 1) d rest (by omega)] at ha
        simp at ha
      simp only [iterMeasure, ha]
      have hdb : (cmax d2 a2 + 1 - (fn + 1)).toNat + 1 <
          (cmax d rest + 1 - fn).toNat + 1 := by omega
      omega

/-- One iteration of `Frames._iter_frames`'s merge loop (lines 409–421):
yield the pending replacement at `fn` when one exists, else materialize
and stage the db document at `fn` unless it is marked for deletion.
Returns the yielded frame (if any), the updated replacements dictionary,
and the updated identity counter. -/
def iterStep (deletes : Finset Int) (replDone : Bool)
    (repl : List (Int × Frame)) (d? : Option Doc) (fn : Int)
    (nextId : Nat) : Option Frame × List (Int × Frame) × Nat :=
  if replDone = false ∧ (alookup repl fn).isSome then
    (alookup repl fn, repl, nextId)
  else
    match d? with
    | some d =>
      if fn = d.frame_number ∧ fn ∉ deletes then
        let f := makeFrame nextId d
        (some f, ainsert repl f.frame_number f, nextId + 1)
      else (none, repl, nextId)
    | none => (none, repl, nextId)

/-- The merge loop of `Frames._iter_frames` (lines 404–433): advance a
synthetic `frame_number` from `fn` upward, performing `iterStep` at each
position and advancing the db cursor past consumed or masked documents;
stop when both the replacement side and the db side are exhausted.
Returns the yielded frames, the final replacements dictionary and the
final identity counter. -/
def iterLoop (deletes : Finset Int) (m : Int) (replDone : Bool)
    (repl : List (Int × Frame)) (d? : Option Doc) (rest : List Doc)
    (fn : Int) (nextId : Nat) :
    List Frame × List (Int × Frame) × Nat :=
  if replDone = true ∧ d? = none then ([], repl, nextId)
  else
    let step := iterStep deletes replDone repl d? fn nextId
    let a := advanceCursor (fn + 1) d? rest
    let r := iterLoop deletes m (replDone || decide (m < fn + 1))
      step.2.1 a.1 a.2 (fn + 1) step.2.2
    (step.1.toList ++ r.1, r.2.1, r.2.2)
termination_by iterMeasure m replDone d? rest fn
decreasing_by exact iterMeasure_decreases m fn replDone d? rest (by assumption)

/-- Models `max(self._replacements.keys())` with the `-1` default for an empty
dictionary. -/
def maxKeys (l : List (Int × Frame)) : Int :=
  match akeys l with
  | [] => -1
  | k :: ks => ks.foldl max k

/-- The in-memory-only iteration branch: the staged replacements in
ascending key order (`for frame_number in sorted(self._replacements)`). -/
def sortedReplValues (repl : List (Int × Frame)) : List Frame :=
  (List.insertionSort (· ≤ ·) (akeys repl)).map
    (fun k => (alookup repl k).getD ⟨0, .frame, none, 0, [], false⟩)

/-- The initial cursor: `try: d = next(results); db_done = False
except StopIteration: d = None; db_done = True`. -/
def cursorInit (l : List Doc) : Option Doc × List Doc :=
  match l with
  | [] => (none, [])
  | d :: r => (some d, r)

/-- Models `Frames._iter_frames`. -/
def iterFrames (s : FramesState) : List Frame × FramesState :=
  if ¬ s.sample_in_db ∨ s.delete_all then
    (sortedReplValues s.replacements, s)
  else
    let c := cursorInit (iterFramesDb s)
    let r := iterLoop s.delete_frames (maxKeys s.replacements)
      (decide (s.replacements = [])) s.replacements c.1 c.2 1 s.nextId
    (r.1, { s with replacements := r.2.1, nextId := r.2.2 })

/-- Models `Frames.values` (the yielded frames; the staging side effects land in
the returned state of `iterFrames`). -/
def valuesOf (s : FramesState) : List Frame := (iterFrames s).1

/-- Models `Frames.items`. -/
def itemsOf (s : FramesState) : List (Int × Frame) :=
  (iterFrames s).1.map (fun f => (f.frame_number, f))

/-! ## Dictionary lemmas -/

theorem alookup_ainsert_self (l : List (Int × Frame)) (k : Int)
    (f : Frame) : alookup (ainsert l k f) k = some f := by
  induction l with
  | nil => simp [ainsert, alookup]
  | cons p rest ih =>
    obtain ⟨k', f'⟩ := p
    by_cases h : k' = k
    · simp [ainsert, alookup, h]
    · simp [ainsert, alookup, h, ih]

theorem alookup_ainsert_ne (l : List (Int × Frame)) (k j : Int) (f : Frame)
    (h : j ≠ k) : alookup (ainsert l k f) j = alookup l j := by
  induction l with
  | nil => simp [ainsert, alookup, Ne.symm h]
  | cons p rest ih =>
    obtain ⟨k', f'⟩ := p
    by_cases h1 : k' = k
    · subst h1
      simp [ainsert, alookup, Ne.symm h]
    · by_cases h2 : k' = j
      · subst h2
        simp [ainsert, alookup, h1, Ne.symm h]
      · simp [ainsert, alookup, h1, h2, ih]

theorem mem_ainsert (l : List (Int × Frame)) (k : Int) (f : Frame) :
    ∀ p ∈ ainsert l k f, p ∈ l ∨ p = (k, f) := by
  induction l with
  | nil => simp [ainsert]
  | cons q rest ih =>
    obtain ⟨k', f'⟩ := q
    intro p hp
    by_cases h : k' = k
    · simp only [ainsert, if_pos h, List.mem_cons] at hp
      rcases hp with hp | hp
      · exact Or.inr hp
      · exact Or.inl (List.mem_cons_of_mem _ hp)
    · simp only [ainsert, if_neg h, List.mem_cons] at hp
      rcases hp with hp | hp
      · exact Or.inl (hp ▸ List.mem_cons_self _ _)
      · rcases ih p hp with h2 | h2
        · exact Or.inl (List.mem_cons_of_mem _ h2)
        · exact Or.inr h2

theorem alookup_mem (l : List (Int × Frame)) (k : Int) (f : Frame)
    (h : alookup l k = some f) : (k, f) ∈ l := by
  induction l with
  | nil => simp [alookup] at h
  | cons p rest ih =>
    obtain ⟨k', f'⟩ := p
    by_cases h1 : k' = k
    · subst h1
      simp only [alookup, if_true, eq_self_iff_true, Option.some.injEq]
        at h
      rw [← h]
      exact List.mem_cons_self _ _
    · simp only [alookup, if_neg h1] at h
      exact List.mem_cons_of_mem _ (ih h)

theorem alookup_aerase_self (l : List (Int × Frame)) (k : Int) :
    alookup (aerase l k) k = none := by
  induction l with
  | nil => simp [aerase, alookup]
  | cons p rest ih =>
    obtain ⟨k', f'⟩ := p
    by_cases h : k' = k
    · simpa [aerase, h] using ih
    · simpa [aerase, alookup, h] using ih

theorem alookup_aerase_ne (l : List (Int × Frame)) (k j : Int)
    (h : j ≠ k) : alookup (aerase l k) j = alookup l j := by
  induction l with
  | nil => simp [aerase, alookup]
  | cons p rest ih =>
    obtain ⟨k', f'⟩ := p
    by_cases h1 : k' = k
    · subst h1
      simpa [aerase, alookup, Ne.symm h] using ih
    · by_cases h2 : k' = j
      · subst h2
        simp [aerase, alookup, h1]
      · simpa [aerase, alookup, h1, h2] using ih

/-! ## Fold-max lemmas for `maxKeys` -/

theorem int_le_foldl_max (a : Int) (l : List Int) :
    a ≤ l.foldl max a := by
  induction l generalizing a with
  | nil => simp
  | cons x r ih =>
    simp only [List.foldl_cons]
    exact le_trans (le_max_left _ _) (ih _)

theorem int_mem_le_foldl_max (x a : Int) (l : List Int) (h : x ∈ l) :
    x ≤ l.foldl max a := by
  induction l generalizing a with
  | nil => simp at h
  | cons y r ih =>
    simp only [List.foldl_cons]
    rcases List.mem_cons.mp h with h1 | h1
    · subst h1
      exact le_trans (le_max_right _ _) (int_le_foldl_max _ _)
    · exact ih _ h1

theorem le_maxKeys_of_lookup (l : List (Int × Frame)) (k : Int) (f : Frame)
    (h : alookup l k = some f) : k ≤ maxKeys l := by
  have hmem : k ∈ akeys l := by
    have := alookup_mem l k f h
    exact List.mem_map.mpr ⟨(k, f), this, rfl⟩
  unfold maxKeys
  match hk : akeys l with
  | [] => rw [hk] at hmem; simp at hmem
  | k0 :: ks =>
    rw [hk] at hmem
    rcases List.mem_cons.mp hmem with h1 | h1
    · subst h1
      exact int_le_foldl_max _ _
    · exact int_mem_le_foldl_max _ _ _ h1

/-! ## `iterStep` lemmas -/

theorem iterStep_yield_key (deletes : Finset Int) (replDone : Bool)
    (repl : List (Int × Frame)) (d? : Option Doc) (fn : Int)
    (nextId : Nat) (hWF : ∀ p ∈ repl, p.2.frame_number = p.1) (f : Frame)
    (h : (iterStep deletes replDone repl d? fn nextId).1 = some f) :
    f.frame_number = fn := by
  unfold iterStep at h
  split at h
  · next hc =>
    exact hWF _ (alookup_mem repl fn f h)
  · split at h
    · next d =>
      split at h
      · next hcond =>
        simp only [Option.some.injEq] at h
        rw [← h]
        exact (hcond.1).symm
      · simp at h
    · simp at h

theorem iterStep_preserves_wf (deletes : Finset Int) (replDone : Bool)
    (repl : List (Int × Frame)) (d? : Option Doc) (fn : Int)
    (nextId : Nat) (hWF : ∀ p ∈ repl, p.2.frame_number = p.1) :
    ∀ p ∈ (iterStep deletes replDone repl d? fn nextId).2.1,
      p.2.frame_number = p.1 := by
  unfold iterStep
  split
  · exact hWF
  · split
    · next d =>
      split
      · intro p hp
        rcases mem_ainsert _ _ _ p hp with h1 | h1
        · exact hWF _ h1
        · rw [h1]
      · exact hWF
    · exact hWF

theorem iterStep_lookup_ne (deletes : Finset Int) (replDone : Bool)
    (repl : List (Int × Frame)) (d? : Option Doc) (fn : Int)
    (nextId : Nat) (j : Int) (hj : j ≠ fn) :
    alookup (iterStep deletes replDone repl d? fn nextId).2.1 j =
      alookup repl j := by
  unfold iterStep
  split
  · rfl
  · split
    · next d =>
      split
      · next hcond =>
        show alookup (ainsert repl (makeFrame nextId d).frame_number
          (makeFrame nextId d)) j = alookup repl j
        have hkey : (makeFrame nextId d).frame_number = fn :=
          (hcond.1).symm
        rw [hkey]
        exact alookup_ainsert_ne _ _ _ _ hj
      · rfl
    · rfl

theorem iterStep_yield_not_deleted (deletes : Finset Int)
    (replDone : Bool) (repl : List (Int × Frame)) (d? : Option Doc)
    (fn : Int) (nextId : Nat) (k : Int) (hk : k ∈ deletes)
    (hnone : alookup repl k = none) (f : Frame)
    (h : (iterStep deletes replDone repl d? fn nextId).1 = some f)
    (hWF : ∀ p ∈ repl, p.2.frame_number = p.1) :
    f.frame_number ≠ k := by
  unfold iterStep at h
  split at h
  · next hc =>
    have hkey : f.frame_number = fn := hWF _ (alookup_mem repl fn f h)
    intro hfk
    have hkfn : k = fn := hfk ▸ hkey
    rw [hkfn] at hnone
    rw [hnone] at h
    simp at h
  · split at h
    · next d =>
      split at h
      · next hcond =>
        simp only [Option.some.injEq] at h
        rw [← h]
        simp only [makeFrame]
        intro hfk
        rw [← hcond.1] at hfk
        rw [hfk] at hcond
        exact hcond.2 hk
      · simp at h
    · simp at h

theorem iterStep_lookup_none (deletes : Finset Int) (replDone : Bool)
    (repl : List (Int × Frame)) (d? : Option Doc) (fn : Int)
    (nextId : Nat) (k : Int) (hk : k ∈ deletes)
    (hnone : alookup repl k = none) :
    alookup (iterStep deletes replDone repl d? fn nextId).2.1 k =
      none := by
  unfold iterStep
  split
  · exact hnone
  · split
    · next d =>
      split
      · next hcond =>
        show alookup (ainsert repl (makeFrame nextId d).frame_number
          (makeFrame nextId d)) k = none
        have hkey : (makeFrame nextId d).frame_number = fn :=
          (hcond.1).symm
        rw [hkey]
        have hkne : k ≠ fn := by
          intro he
          rw [he] at hk
          exact hcond.2 hk
        rw [alookup_ainsert_ne _ _ _ _ hkne]
        exact hnone
      · exact hnone
    · exact hnone

theorem iterStep_hit (deletes : Finset Int) (repl : List (Int × Frame))
    (d? : Option Doc) (fn : Int) (nextId : Nat) (f : Frame)
    (hl : alookup repl fn = some f) :
    iterStep deletes false repl d? fn nextId = (some f, repl, nextId) := by
  unfold iterStep
  rw [if_pos ⟨rfl, by simp [hl]⟩, hl]

/-! ## `iterLoop` lemmas

The merge-loop invariants are proved by strong induction on the
termination measure, via an explicit bound `n`. -/

/-- The continuation of the merge loop after one iteration. -/
def iterNext (deletes : Finset Int) (m : Int) (replDone : Bool)
    (repl : List (Int × Frame)) (d? : Option Doc) (rest : List Doc)
    (fn : Int) (nextId : Nat) : List Frame × List (Int × Frame) × Nat :=
  iterLoop deletes m (replDone || decide (m < fn + 1))
    (iterStep deletes replDone repl d? fn nextId).2.1
    (advanceCursor (fn + 1) d? rest).1
    (advanceCursor (fn + 1) d? rest).2 (fn + 1)
    (iterStep deletes replDone repl d? fn nextId).2.2

theorem iterLoop_done (deletes : Finset Int) (m : Int) (replDone : Bool)
    (repl : List (Int × Frame)) (d? : Option Doc) (rest : List Doc)
    (fn : Int) (nextId : Nat) (h : replDone = true ∧ d? = none) :
    iterLoop deletes m replDone repl d? rest fn nextId =
      ([], repl, nextId) := by
  rw [iterLoop, if_pos h]

theorem iterLoop_cont (deletes : Finset Int) (m : Int) (replDone : Bool)
    (repl : List (Int × Frame)) (d? : Option Doc) (rest : List Doc)
    (fn : Int) (nextId : Nat) (h : ¬(replDone = true ∧ d? = none)) :
    iterLoop deletes m replDone repl d? rest fn nextId =
      ((iterStep deletes replDone repl d? fn nextId).1.toList ++
        (iterNext deletes m replDone repl d? rest fn nextId).1,
       (iterNext deletes m replDone repl d? rest fn nextId).2) := by
  rw [iterLoop, if_neg h]
  rfl

theorem measure_zero_done (m : Int) (replDone : Bool) (d? : Option Doc)
    (rest : List Doc) (fn : Int)
    (h : iterMeasure m replDone d? rest fn ≤ 0) :
    replDone = true ∧ d? = none := by
  rcases d? with _ | d
  · refine ⟨?_, rfl⟩
    by_contra hr
    simp only [iterMeasure] at h
    rw [if_neg hr] at h
    omega
  · exfalso
    simp only [iterMeasure] at h
    split at h <;> omega

theorem iterNext_measure_le (m : Int) (replDone : Bool) (d? : Option Doc)
    (rest : List Doc) (fn : Int) (n : Nat)
    (hn : iterMeasure m replDone d? rest fn ≤ n + 1)
    (h : ¬(replDone = true ∧ d? = none)) :
    iterMeasure m (replDone || decide (m < fn + 1))
      (advanceCursor (fn + 1) d? rest).1
      (advanceCursor (fn + 1) d? rest).2 (fn + 1) ≤ n := by
  have := iterMeasure_decreases m fn replDone d? rest h
  omega

theorem iterLoop_keys_ge (deletes : Finset Int) (m : Int) :
    ∀ (n : Nat) (replDone : Bool) (repl : List (Int × Frame))
      (d? : Option Doc) (rest : List Doc) (fn : Int) (nextId : Nat),
      iterMeasure m replDone d? rest fn ≤ n →
      (∀ p ∈ repl, p.2.frame_number = p.1) →
      ∀ f ∈ (iterLoop deletes m replDone repl d? rest fn nextId).1,
        fn ≤ f.frame_number := by
  intro n
  induction n with
  | zero =>
    intro replDone repl d? rest fn nextId hn _ f hf
    rw [iterLoop_done deletes m replDone repl d? rest fn nextId
      (measure_zero_done m replDone d? rest fn hn)] at hf
    simp at hf
  | succ n ih =>
    intro replDone repl d? rest fn nextId hn hWF f hf
    by_cases hdone : replDone = true ∧ d? = none
    · rw [iterLoop_done deletes m replDone repl d? rest fn nextId hdone]
        at hf
      simp at hf
    · rw [iterLoop_cont deletes m replDone repl d? rest fn nextId hdone]
        at hf
      rcases List.mem_append.mp hf with hf | hf
      · match hy : (iterStep deletes replDone repl d? fn nextId).1 with
        | none => rw [hy] at hf; simp at hf
        | some g =>
          rw [hy] at hf
          simp only [Option.toList_some, List.mem_singleton] at hf
          rw [hf]
          rw [iterStep_yield_key deletes replDone repl d? fn nextId hWF
            g hy]
      · have hrec := ih (replDone || decide (m < fn + 1))
          (iterStep deletes replDone repl d? fn nextId).2.1
          (advanceCursor (fn + 1) d? rest).1
          (advanceCursor (fn + 1) d? rest).2 (fn + 1)
          (iterStep deletes replDone repl d? fn nextId).2.2
          (iterNext_measure_le m replDone d? rest fn n hn hdone)
          (iterStep_preserves_wf deletes replDone repl d? fn nextId hWF)
          f hf
        omega

theorem iterLoop_keys_sorted (deletes : Finset Int) (m : Int) :
    ∀ (n : Nat) (replDone : Bool) (repl : List (Int × Frame))
      (d? : Option Doc) (rest : List Doc) (fn : Int) (nextId : Nat),
      iterMeasure m replDone d? rest fn ≤ n →
      (∀ p ∈ repl, p.2.frame_number = p.1) →
      ((iterLoop deletes m replDone repl d? rest fn nextId).1.map
        (fun f => f.frame_number)).Pairwise (· < ·) := by
  intro n
  induction n with
  | zero =>
    intro replDone repl d? rest fn nextId hn _
    rw [iterLoop_done deletes m replDone repl d? rest fn nextId
      (measure_zero_done m replDone d? rest fn hn)]
    simp
  | succ n ih =>
    intro replDone repl d? rest fn nextId hn hWF
    by_cases hdone : replDone = true ∧ d? = none
    · rw [iterLoop_done deletes m replDone repl d? rest fn nextId hdone]
      simp
    · rw [iterLoop_cont deletes m replDone repl d? rest fn nextId hdone]
      simp only [List.map_append]
      rw [List.pairwise_append]
      refine ⟨?_, ?_, ?_⟩
      · match hy : (iterStep deletes replDone repl d? fn nextId).1 with
        | none => simp
        | some g => simp
      · exact ih (replDone || decide (m < fn + 1))
          (iterStep deletes replDone repl d? fn nextId).2.1
          (advanceCursor (fn + 1) d? rest).1
          (advanceCursor (fn + 1) d? rest).2 (fn + 1)
          (iterStep deletes replDone repl d? fn nextId).2.2
          (iterNext_measure_le m replDone d? rest fn n hn hdone)
          (iterStep_preserves_wf deletes replDone repl d? fn nextId hWF)
      · intro a ha b hb
        match hy : (iterStep deletes replDone repl d? fn nextId).1 with
        | none => rw [hy] at ha; simp at ha
        | some g =>
          rw [hy] at ha
          simp only [Option.toList_some, List.map_cons, List.map_nil,
            List.mem_singleton] at ha
          rcases List.mem_map.mp hb with ⟨f, hf, hbf⟩
          have h1 := iterLoop_keys_ge deletes m n
            (replDone || decide (m < fn + 1))
            (iterStep deletes replDone repl d? fn nextId).2.1
            (advanceCursor (fn + 1) d? rest).1
            (advanceCursor (fn + 1) d? rest).2 (fn + 1)
            (iterStep deletes replDone repl d? fn nextId).2.2
            (iterNext_measure_le m replDone d? rest fn n hn hdone)
            (iterStep_preserves_wf deletes replDone repl d? fn nextId hWF)
            f hf
          have h2 := iterStep_yield_key deletes replDone repl d? fn
            nextId hWF g hy
          rw [ha, h2, ← hbf]
          omega

theorem iterLoop_deleted_not_mem (deletes : Finset Int) (m : Int) :
    ∀ (n : Nat) (replDone : Bool) (repl : List (Int × Frame))
      (d? : Option Doc) (rest : List Doc) (fn : Int) (nextId : Nat)
      (k : Int),
      iterMeasure m replDone d? rest fn ≤ n →
      (∀ p ∈ repl, p.2.frame_number = p.1) →
      k ∈ deletes → alookup repl k = none →
      ∀ f ∈ (iterLoop deletes m replDone repl d? rest fn nextId).1,
        f.frame_number ≠ k := by
  intro n
  induction n with
  | zero =>
    intro replDone repl d? rest fn nextId k hn _ _ _ f hf
    rw [iterLoop_done deletes m replDone repl d? rest fn nextId
      (measure_zero_done m replDone d? rest fn hn)] at hf
    simp at hf
  | succ n ih =>
    intro replDone repl d? rest fn nextId k hn hWF hk hnone f hf
    by_cases hdone : replDone = true ∧ d? = none
    · rw [iterLoop_done deletes m replDone repl d? rest fn nextId hdone]
        at hf
      simp at hf
    · rw [iterLoop_cont deletes m replDone repl d? rest fn nextId hdone]
        at hf
      rcases List.mem_append.mp hf with hf | hf
      · match hy : (iterStep deletes replDone repl d? fn nextId).1 with
        | none => rw [hy] at hf; simp at hf
        | some g =>
          rw [hy] at hf
          simp only [Option.toList_some, List.mem_singleton] at hf
          rw [hf]
          exact iterStep_yield_not_deleted deletes replDone repl d? fn
            nextId k hk hnone g hy hWF
      · exact ih (replDone || decide (m < fn + 1))
          (iterStep deletes replDone repl d? fn nextId).2.1
          (advanceCursor (fn + 1) d? rest).1
          (advanceCursor (fn + 1) d? rest).2 (fn + 1)
          (iterStep deletes replDone repl d? fn nextId).2.2 k
          (iterNext_measure_le m replDone d? rest fn n hn hdone)
          (iterStep_preserves_wf deletes replDone repl d? fn nextId hWF)
          hk
          (iterStep_lookup_none deletes replDone repl d? fn nextId k hk
            hnone)
          f hf

theorem iterLoop_complete (deletes : Finset Int) (m : Int) :
    ∀ (n : Nat) (replDone : Bool) (repl : List (Int × Frame))
      (d? : Option Doc) (rest : List Doc) (fn : Int) (nextId : Nat)
      (k : Int) (f : Frame),
      iterMeasure m replDone d? rest fn ≤ n →
      alookup repl k = some f → fn ≤ k → k ≤ m →
      replDone = decide (m < fn) →
      f ∈ (iterLoop deletes m replDone repl d? rest fn nextId).1 := by
  intro n
  induction n with
  | zero =>
    intro replDone repl d? rest fn nextId k f hn _ hfk hkm hrd
    have hdone := measure_zero_done m replDone d? rest fn hn
    rw [hdone.1] at hrd
    have : m < fn := of_decide_eq_true hrd.symm
    omega
  | succ n ih =>
    intro replDone repl d? rest fn nextId k f hn hl hfk hkm hrd
    have hrd' : replDone = false := by
      rw [hrd]
      simp only [decide_eq_false_iff_not, not_lt]
      omega
    subst hrd'
    have hdone : ¬(false = true ∧ d? = none) := by simp
    rw [iterLoop_cont deletes m false repl d? rest fn nextId hdone]
    by_cases hfneq : fn = k
    · subst hfneq
      rw [iterStep_hit deletes repl d? fn nextId f hl]
      simp
    · refine List.mem_append.mpr (Or.inr ?_)
      refine ih (false || decide (m < fn + 1))
        (iterStep deletes false repl d? fn nextId).2.1
        (advanceCursor (fn + 1) d? rest).1
        (advanceCursor (fn + 1) d? rest).2 (fn + 1)
        (iterStep deletes false repl d? fn nextId).2.2 k f
        (iterNext_measure_le m false d? rest fn n hn hdone) ?_ ?_ hkm ?_
      · rw [iterStep_lookup_ne deletes false repl d? fn nextId k
          (fun h => hfneq h.symm)]
        exact hl
      · omega
      · simp

/-! ## Top-level iteration lemmas -/

theorem alookup_isSome_of_mem_keys (l : List (Int × Frame)) (k : Int)
    (h : k ∈ akeys l) : (alookup l k).isSome := by
  induction l with
  | nil => simp [akeys] at h
  | cons p rest ih =>
    obtain ⟨k', f'⟩ := p
    by_cases h1 : k' = k
    · simp [alookup, h1]
    · simp only [akeys, List.map_cons, List.mem_cons] at h
      rcases h with h2 | h2
      · exact absurd h2.symm h1
      · simp only [alookup, if_neg h1]
        exact ih h2

theorem sortedReplValues_keys (repl : List (Int × Frame))
    (hWF : ∀ p ∈ repl, p.2.frame_number = p.1) :
    (sortedReplValues repl).map (fun f => f.frame_number) =
      List.insertionSort (· ≤ ·) (akeys repl) := by
  unfold sortedReplValues
  rw [List.map_map]
  have : ∀ k ∈ List.insertionSort (· ≤ ·) (akeys repl),
      ((fun f => f.frame_number) ∘
        (fun k => (alookup repl k).getD ⟨0, .frame, none, 0, [], false⟩))
        k = id k := by
    intro k hk
    have hmem : k ∈ akeys repl :=
      (List.perm_insertionSort (· ≤ ·) (akeys repl)).mem_iff.mp hk
    have hs := alookup_isSome_of_mem_keys repl k hmem
    match hl : alookup repl k with
    | none => rw [hl] at hs; simp at hs
    | some f =>
      have hkey : f.frame_number = k := hWF _ (alookup_mem repl k f hl)
      simp [hl, hkey]
  rw [List.map_congr_left this, List.map_id]

theorem iterFrames_keys_sorted (s : FramesState)
    (hnd : (akeys s.replacements).Nodup)
    (hWF : ∀ p ∈ s.replacements, p.2.frame_number = p.1) :
    ((iterFrames s).1.map (fun f => f.frame_number)).Pairwise (· < ·) := by
  unfold iterFrames
  by_cases h : ¬ s.sample_in_db ∨ s.delete_all
  · rw [if_pos h]
    show ((sortedReplValues s.replacements).map
      (fun f => f.frame_number)).Pairwise (· < ·)
    rw [sortedReplValues_keys s.replacements hWF]
    have hs : List.Sorted (· ≤ ·)
        (List.insertionSort (· ≤ ·) (akeys s.replacements)) :=
      List.sorted_insertionSort _ _
    have hnd2 : (List.insertionSort (· ≤ ·) (akeys s.replacements)).Nodup :=
      ((List.perm_insertionSort _ _).nodup_iff).mpr hnd
    exact hs.lt_of_le hnd2
  · rw [if_neg h]
    exact iterLoop_keys_sorted s.delete_frames (maxKeys s.replacements)
      (iterMeasure (maxKeys s.replacements) (decide (s.replacements = []))
        (cursorInit (iterFramesDb s)).1 (cursorInit (iterFramesDb s)).2 1)
      (decide (s.replacements = [])) s.replacements
      (cursorInit (iterFramesDb s)).1 (cursorInit (iterFramesDb s)).2 1
      s.nextId (le_refl _) hWF

theorem iterFrames_deleted_suppressed (s : FramesState) (k : Int)
    (hdb : s.sample_in_db = true) (hda : s.delete_all = false)
    (hWF : ∀ p ∈ s.replacements, p.2.frame_number = p.1)
    (hk : k ∈ s.delete_frames)
    (hnone : alookup s.replacements k = none) :
    ∀ f ∈ (iterFrames s).1, f.frame_number ≠ k := by
  unfold iterFrames
  rw [if_neg (by simp [hdb, hda])]
  intro f hf
  exact iterLoop_deleted_not_mem s.delete_frames (maxKeys s.replacements)
    (iterMeasure (maxKeys s.replacements) (decide (s.replacements = []))
      (cursorInit (iterFramesDb s)).1 (cursorInit (iterFramesDb s)).2 1)
    (decide (s.replacements = [])) s.replacements
    (cursorInit (iterFramesDb s)).1 (cursorInit (iterFramesDb s)).2 1
    s.nextId k (le_refl _) hWF hk hnone f hf

theorem iterFrames_replacement_yielded (s : FramesState) (k : Int)
    (f : Frame) (hdb : s.sample_in_db = true) (hda : s.delete_all = false)
    (hl : alookup s.replacements k = some f) (hk : 1 ≤ k) :
    f ∈ (iterFrames s).1 := by
  unfold iterFrames
  rw [if_neg (by simp [hdb, hda])]
  have hkm : k ≤ maxKeys s.replacements := le_maxKeys_of_lookup _ _ _ hl
  have hne : ¬ s.replacements = [] := by
    intro he
    rw [he] at hl
    simp [alookup] at hl
  refine iterLoop_complete s.delete_frames (maxKeys s.replacements)
    (iterMeasure (maxKeys s.replacements) (decide (s.replacements = []))
      (cursorInit (iterFramesDb s)).1 (cursorInit (iterFramesDb s)).2 1)
    (decide (s.replacements = [])) s.replacements
    (cursorInit (iterFramesDb s)).1 (cursorInit (iterFramesDb s)).2 1
    s.nextId k f (le_refl _) hl hk hkm ?_
  have h2 : ¬ maxKeys s.replacements < 1 := by omega
  simp [hne, h2]

/-! ## The C1 scenario: store keys `{1,3,5}`, `pending_replacements =
{2: R2}`, `pending_deletes = {3}` -/

def scenarioStoreDoc1 : Doc := ⟨some 11, 1, [("a", 1)]⟩

def scenarioStoreDoc3 : Doc := ⟨some 13, 3, [("a", 3)]⟩

def scenarioStoreDoc5 : Doc := ⟨some 15, 5, [("a", 5)]⟩

def scenarioR2 : Frame := ⟨100, .frame, some 12, 2, [("b", 2)], true⟩

def scenarioState : FramesState where
  replacements := [(2, scenarioR2)]
  delete_frames := {3}
  delete_all := false
  sample_in_db := true
  store := [scenarioStoreDoc1, scenarioStoreDoc3, scenarioStoreDoc5]
  registry := []
  nextId := 200
  nextDocId := 50

/-- Claim C1: For a store-backed parent, ordered iteration
(`items()`/`values()`) performs a sorted merge of pending replacements
and the store-side ordered scan: (i) the yielded keys are strictly
ascending (hence duplicate-free); (ii) a key in `pending_deletes` with no
pending replacement is suppressed; (iii) every pending replacement with a
valid key is yielded (inserted in its sorted position, by (i)); and (iv)
in the concrete scenario with store keys `{1,3,5}`,
`pending_replacements = {2: R2}` and `pending_deletes = {3}`, `items()`
yields `(1, store record 1), (2, R2), (5, store record 5)` in that
order.  The structural hypotheses in (i)–(iii) state that the
replacements dictionary is well-formed (distinct keys, each record keyed
by its own frame number), which every staging path guarantees. -/
theorem C1_ordered_iteration_sorted_merge :
    (∀ s : FramesState, (akeys s.replacements).Nodup →
      (∀ p ∈ s.replacements, p.2.frame_number = p.1) →
      ((iterFrames s).1.map (fun f => f.frame_number)).Pairwise (· < ·))
    ∧ (∀ (s : FramesState) (k : Int), s.sample_in_db = true →
        s.delete_all = false →
        (∀ p ∈ s.replacements, p.2.frame_number = p.1) →
        k ∈ s.delete_frames → alookup s.replacements k = none →
        ∀ f ∈ (iterFrames s).1, f.frame_number ≠ k)
    ∧ (∀ (s : FramesState) (k : Int) (f : Frame), s.sample_in_db = true →
        s.delete_all = false → alookup s.replacements k = some f →
        1 ≤ k → f ∈ (iterFrames s).1)
    ∧ itemsOf scenarioState =
        [(1, makeFrame 200 scenarioStoreDoc1), (2, scenarioR2),
         (5, makeFrame 201 scenarioStoreDoc5)] := by
  refine ⟨iterFrames_keys_sorted, ?_, ?_, ?_⟩
  · intro s k hdb hda hWF hk hnone
    exact iterFrames_deleted_suppressed s k hdb hda hWF hk hnone
  · intro s k f hdb hda hl hk
    exact iterFrames_replacement_yielded s k f hdb hda hl hk
  · simp [itemsOf, iterFrames, iterFramesDb, cursorInit, maxKeys, akeys,
      iterLoop, iterStep, advanceCursor, alookup, ainsert, makeFrame,
      scenarioState, scenarioStoreDoc1, scenarioStoreDoc3,
      scenarioStoreDoc5, scenarioR2]

/-- Witness for C1: the general clauses instantiated on the concrete
scenario state. -/
theorem C1_ordered_iteration_sorted_merge_witness :
    ((iterFrames scenarioState).1.map
      (fun f => f.frame_number)).Pairwise (· < ·)
    ∧ (∀ f ∈ (iterFrames scenarioState).1, f.frame_number ≠ 3)
    ∧ scenarioR2 ∈ (iterFrames scenarioState).1 :=
  ⟨C1_ordered_iteration_sorted_merge.1 scenarioState (by decide)
    (by decide),
   fun f hf => C1_ordered_iteration_sorted_merge.2.1 scenarioState 3
    (by decide) (by decide) (by decide) (by decide) (by decide) f hf,
   C1_ordered_iteration_sorted_merge.2.2.1 scenarioState 2 scenarioR2
    (by decide) (by decide) (by decide) (by decide)⟩

/-! ## C6: identity stability of lookup -/

/-- The document a lookup materializes always carries the requested key
(the `find_one` filter constrains `frame_number`, and the synthesized
minimal bag is keyed explicitly). -/
theorem getFrame_doc_key (s : FramesState) (k : Int) :
    ((if s.delete_all ∨ k ∈ s.delete_frames then none
      else getFrameDb s k).getD ⟨none, k, []⟩).frame_number = k := by
  split
  · rfl
  · match hd : getFrameDb s k with
    | none => rfl
    | some d =>
      have hp := List.find?_some hd
      simp only [decide_eq_true_eq] at hp
      simpa using hp

/-- Claim C6: Identity stability: for every key `k`, if `get(k)` returns
record `f` leaving state `s'`, then `get(k)` on `s'` returns the
identical record instance `f` and leaves the state unchanged — the first
lookup stages the materialized or synthesized record as a pending
replacement and the second lookup serves that same staged instance.  The
statement quantifies over all states, so it covers both transient and
store-backed parents. -/
theorem C6_get_twice_identity (s : FramesState) (k : Int) (f : Frame)
    (s' : FramesState) (h : getFrame s k = .ok (f, s')) :
    getFrame s' k = .ok (f, s') := by
  have hstage : alookup s'.replacements k = some f := by
    unfold getFrame at h
    by_cases hv : ¬ isFrameNumber k = true
    · rw [if_pos hv] at h
      simp at h
    · rw [if_neg hv] at h
      match hl : alookup s.replacements k with
      | some g =>
        rw [hl] at h
        simp only [Except.ok.injEq, Prod.mk.injEq] at h
        rw [← h.2, hl, h.1]
      | none =>
        rw [hl] at h
        by_cases hdb : ¬ s.sample_in_db = true
        · rw [if_pos hdb] at h
          simp only [Except.ok.injEq, Prod.mk.injEq] at h
          rw [← h.2, ← h.1]
          exact alookup_ainsert_self _ _ _
        · rw [if_neg hdb] at h
          simp only [Except.ok.injEq, Prod.mk.injEq] at h
          rw [← h.2, ← h.1]
          show alookup (ainsert s.replacements
            (makeFrame s.nextId _).frame_number _) k = _
          have hkey : (makeFrame s.nextId
              ((if s.delete_all ∨ k ∈ s.delete_frames then none
                else getFrameDb s k).getD ⟨none, k, []⟩)).frame_number =
              k := getFrame_doc_key s k
          rw [hkey]
          exact alookup_ainsert_self _ _ _
  have hv : isFrameNumber k = true := by
    by_contra hv
    unfold getFrame at h
    rw [if_pos hv] at h
    simp at h
  unfold getFrame
  rw [if_neg (by simp [hv]), hstage]

/-- The transient state used by the C6 witness. -/
def c6State0 : FramesState where
  replacements := []
  delete_frames := ∅
  delete_all := false
  sample_in_db := false
  store := []
  registry := []
  nextId := 0
  nextDocId := 0

/-- The frame synthesized by the first lookup of the C6 witness. -/
def c6Frame : Frame := ⟨0, .frame, none, 1, [], false⟩

/-- The state after the first lookup of the C6 witness. -/
def c6State1 : FramesState :=
  { c6State0 with replacements := [(1, c6Frame)], nextId := 1 }

/-- Witness for C6: on a transient parent, two consecutive lookups of
key 1 return the identical synthesized record. -/
theorem C6_get_twice_identity_witness :
    getFrame c6State0 1 = .ok (c6Frame, c6State1) ∧
    getFrame c6State1 1 = .ok (c6Frame, c6State1) := by
  have h : getFrame c6State0 1 = .ok (c6Frame, c6State1) := by
    simp [getFrame, c6State0, c6Frame, c6State1, isFrameNumber, alookup,
      setReplacement, ainsert]
  exact ⟨h, C6_get_twice_identity c6State0 1 c6Frame c6State1 h⟩

/-! ## C7: a pending delete masks the store lookup -/

/-- Claim C7: On a store-backed parent, for every valid key `k` present in
the store, `del(k)` immediately followed by `get(k)` (before any flush)
returns a freshly synthesized empty record — fresh identity
(`s.nextId`), no store id, empty field bag, carrying only the parent
link and the key — rather than the stored or any previously materialized
record: the pending delete masks the store lookup, so the stored
document's contents never reach the result. -/
theorem C7_delete_then_get_fresh_empty (s : FramesState) (k : Int)
    (hdb : s.sample_in_db = true) (hv : isFrameNumber k = true)
    (_hk : k ∈ s.store.map (fun d => d.frame_number)) :
    getFrame (delFrame s k) k =
      .ok (⟨s.nextId, .frame, none, k, [], true⟩,
        setReplacement { delFrame s k with nextId := s.nextId + 1 }
          ⟨s.nextId, .frame, none, k, [], true⟩) := by
  have hdel : delFrame s k =
      { s with replacements := aerase s.replacements k,
               delete_frames := insert k s.delete_frames } := by
    unfold delFrame
    rw [if_neg (by simp [hdb])]
  unfold getFrame
  rw [if_neg (by simp [hv])]
  rw [hdel]
  simp only [alookup_aerase_self]
  rw [if_neg (by simp [hdb])]
  rw [if_pos (Or.inr (Finset.mem_insert_self k s.delete_frames))]
  rfl

/-- Witness for C7: deleting key 1 of the scenario store (which holds a
document with fields for key 1) and re-getting it yields the synthesized
empty record with the fresh identity 200. -/
theorem C7_delete_then_get_fresh_empty_witness :
    getFrame (delFrame scenarioState 1) 1 =
      .ok (⟨200, .frame, none, 1, [], true⟩,
        setReplacement { delFrame scenarioState 1 with nextId := 201 }
          ⟨200, .frame, none, 1, [], true⟩) :=
  C7_delete_then_get_fresh_empty scenarioState 1 (by decide) (by decide)
    (by decide)

/-! ## C9: delete performs no key validation and no existence check -/

/-- Claim C9: `del(k)` never raises, for every `k` — including non-positive
or absent keys (`delFrame` is a total function into states, with no error
outcome, because `__delitem__` performs no validation): it removes `k`
from the pending-replacement dictionary and, exactly when the parent is
store-backed, unconditionally adds `k` to the pending-delete set —
regardless of whether `k` ever existed in the store, so a later flush
will issue a delete operation for it. -/
theorem C9_delete_total_no_validation (s : FramesState) (k : Int) :
    alookup (delFrame s k).replacements k = none
    ∧ (delFrame s k).replacements = aerase s.replacements k
    ∧ (s.sample_in_db = true →
        (delFrame s k).delete_frames = insert k s.delete_frames)
    ∧ (s.sample_in_db = false →
        (delFrame s k).delete_frames = s.delete_frames) := by
  unfold delFrame
  by_cases hdb : s.sample_in_db = true
  · rw [if_neg (by simp [hdb])]
    refine ⟨alookup_aerase_self _ _, rfl, fun _ => rfl, fun h => ?_⟩
    rw [hdb] at h
    cases h
  · rw [if_pos (by simpa using hdb)]
    refine ⟨alookup_aerase_self _ _, rfl, fun h => absurd h hdb,
      fun _ => rfl⟩

/-- Witness for C9: deleting the non-positive, absent key `-5` on the
store-backed scenario state raises nothing, stages `-5` for deletion and
leaves the pending replacements untouched apart from the (absent) key. -/
theorem C9_delete_total_no_validation_witness :
    alookup (delFrame scenarioState (-5)).replacements (-5) = none
    ∧ (delFrame scenarioState (-5)).delete_frames =
        insert (-5) scenarioState.delete_frames :=
  ⟨(C9_delete_total_no_validation scenarioState (-5)).1,
   (C9_delete_total_no_validation scenarioState (-5)).2.2.1 (by decide)⟩

/-! ## C10: `FramesView.reload` clears pending state only -/

/-- A stale live frame for the C10 contrast state. -/
def c10Stale : Frame := ⟨7, .frame, some 11, 1, [], true⟩

/-- A state with one live in-memory holder whose contents differ from
the store's document for key 1. -/
def c10State : FramesState where
  replacements := []
  delete_frames := {2}
  delete_all := true
  sample_in_db := true
  store := [⟨some 11, 1, [("a", 5)]⟩]
  registry := [(1, c10Stale)]
  nextId := 8
  nextDocId := 20

/-- Claim C10: `FramesView.reload()` only clears the pending state (the
pending replacements, the per-key delete set and the delete-all flag):
the store, the singleton registry and every other component of the state
are untouched, and no store access happens — whereas `Frames.reload()`
additionally re-syncs the live in-memory `Frame` instances for the
sample against store contents, as the concrete contrast state shows. -/
theorem C10_view_reload_pending_only :
    (∀ s : FramesState, viewReload s =
      { s with replacements := [], delete_frames := ∅,
               delete_all := false })
    ∧ (∀ s : FramesState, reloadFrames s =
      { s with replacements := [], delete_frames := ∅,
               delete_all := false,
               registry := syncDocsForSample s.store s.registry })
    ∧ (viewReload c10State).registry = c10State.registry
    ∧ (reloadFrames c10State).registry ≠ (viewReload c10State).registry := by
  refine ⟨fun s => rfl, fun s => rfl, rfl, ?_⟩
  decide

/-! ## C8: copying semantics of the write paths -/

theorem setField_append (fs : Fields) (name : String) (v : FieldVal)
    (h : ∀ p ∈ fs, p.1 ≠ name) : setField fs name v = fs ++ [(name, v)] := by
  unfold setField
  rw [if_neg]
  simp only [List.any_eq_true, decide_eq_true_eq, not_exists]
  intro p
  simp only [not_and]
  exact h p

theorem copyFields_aux (src : Fields) :
    ∀ acc : Fields, (src.map Prod.fst).Nodup →
      (∀ p ∈ src, ∀ q ∈ acc, q.1 ≠ p.1) →
      src.foldl (fun a p => setField a p.1 p.2) acc = acc ++ src := by
  induction src with
  | nil =>
    intro acc _ _
    simp
  | cons p rest ih =>
    intro acc hnd hdisj
    simp only [List.map_cons, List.nodup_cons] at hnd
    simp only [List.foldl_cons]
    rw [setField_append acc p.1 p.2
      (fun q hq => hdisj p (List.mem_cons_self _ _) q hq)]
    rw [ih (acc ++ [(p.1, p.2)]) hnd.2 ?_]
    · simp
    · intro r hr q hq
      rcases List.mem_append.mp hq with hq2 | hq2
      · exact hdisj r (List.mem_cons_of_mem _ hr) q hq2
      · simp only [List.mem_singleton] at hq2
        rw [hq2]
        intro he
        exact hnd.1 (List.mem_map.mpr ⟨r, hr, he.symm⟩)

theorem copyFields_eq (src : Fields) (h : (src.map Prod.fst).Nodup) :
    copyFields src = src := by
  unfold copyFields
  rw [copyFields_aux src [] h (by simp)]
  simp

/-- Claim C8: The filtered cache's write path never mutates or aliases the
caller's input: `FramesView.add_frame(fn, f)` constructs a brand-new
`FrameView` (`kind = frameView`, fresh identity `s.nextId ≠ f.ident`,
id-less dataset document), copies `f`'s fields into it, forces the key
field, and stages that new view — the input `f` (a value here) is only
read.  By contrast, the unfiltered `Frames.add_frame` reuses a transient
input by reference: the staged record keeps the caller's identity
`f.ident` and is the caller's object mutated in place (key forced on a
transient parent; rebacked by a fresh document on a store-backed
parent). -/
theorem C8_view_add_never_aliases (s : FramesState) (fn : Int) (f : Frame)
    (hv : isFrameNumber fn = true)
    (hnd : (f.fields.map Prod.fst).Nodup)
    (hlive : f.ident < s.nextId) :
    (viewAddFrame s fn f = .ok (setReplacement
        { s with nextId := s.nextId + 1 }
        ⟨s.nextId, .frameView, none, fn, f.fields, true⟩)
      ∧ s.nextId ≠ f.ident)
    ∧ (f.inDb = false → s.sample_in_db = false →
        addFrame s fn f =
          .ok (setReplacement s { f with frame_number := fn })
        ∧ ({ f with frame_number := fn } : Frame).ident = f.ident)
    ∧ (f.inDb = false → s.sample_in_db = true →
        addFrame s fn f = .ok (setReplacement s
          (setBackingDoc f ⟨none, fn, copyFields f.fields⟩))
        ∧ (setBackingDoc f ⟨none, fn, copyFields f.fields⟩).ident =
            f.ident) := by
  refine ⟨⟨?_, by omega⟩, ?_, ?_⟩
  · unfold viewAddFrame
    rw [if_neg (by simp [hv])]
    rw [copyFields_eq f.fields hnd]
  · intro hfdb hsdb
    unfold addFrame
    rw [if_neg (by simp [hv]), if_neg (by simp [hsdb])]
    rw [if_neg (by simp [hfdb]), if_neg (by simp [hfdb])]
    exact ⟨rfl, rfl⟩
  · intro hfdb hsdb
    unfold addFrame
    rw [if_neg (by simp [hv]), if_pos hsdb]
    rw [if_neg (by simp [hfdb]), if_neg (by simp [hfdb])]
    exact ⟨rfl, rfl⟩

/-- The transient input record used by the C8 witness. -/
def c8Input : Frame := ⟨5, .frame, none, 7, [("x", 1)], false⟩

/-- Witness for C8: adding a transient input through the view path
stages a brand-new `FrameView` with identity 200 and the input's fields,
while the unfiltered path stages the caller's own record (identity 5)
rebacked in place. -/
theorem C8_view_add_never_aliases_witness :
    (viewAddFrame scenarioState 4 c8Input = .ok (setReplacement
        { scenarioState with nextId := 201 }
        ⟨200, .frameView, none, 4, c8Input.fields, true⟩)
      ∧ (200 : Nat) ≠ c8Input.ident)
    ∧ addFrame scenarioState 4 c8Input = .ok (setReplacement scenarioState
        (setBackingDoc c8Input ⟨none, 4, copyFields c8Input.fields⟩)) :=
  ⟨(C8_view_add_never_aliases scenarioState 4 c8Input (by decide)
      (by decide) (by decide)).1,
   ((C8_view_add_never_aliases scenarioState 4 c8Input (by decide)
      (by decide) (by decide)).2.2 (by decide) (by decide)).1⟩

/-! ## C2: a pending replacement versus a pending delete of the same key

`add_frame` never removes its key from `_delete_frames`, and
`_get_frame_numbers` subtracts `_delete_frames` *after* unioning in the
replacement keys, so a key that is both staged and pending deletion is
excluded from the effective key set even though `get` and iteration
serve the staged replacement.  The claim as stated is therefore false on
the code. -/

/-- The transient record staged by the C2 counterexample's `set`. -/
def c2r : Frame := ⟨9, .frame, none, 2, [("x", 3)], false⟩

/-- The C2 counterexample's store-backed state: the store holds key 1,
nothing is pending. -/
def c2State : FramesState where
  replacements := []
  delete_frames := ∅
  delete_all := false
  sample_in_db := true
  store := [⟨some 11, 1, [("a", 1)]⟩]
  registry := []
  nextId := 10
  nextDocId := 5

/-- The state after `del(1); set(1, c2r)` on `c2State`. -/
def c2After : FramesState where
  replacements := [(1, ⟨9, .frame, none, 1, [("x", 3)], true⟩)]
  delete_frames := {1}
  delete_all := false
  sample_in_db := true
  store := [⟨some 11, 1, [("a", 1)]⟩]
  registry := []
  nextId := 10
  nextDocId := 5

/-- Counterexample to C2 as stated:  On the store-backed `c2State`,
after `del(1)` followed by `set(1, c2r)` with no flush, key 1 is staged
as a pending replacement and yet is *not* a member of the effective key
set: `1 ∉ getFrameNumbers`, so `keys()`, `len` and `1 in cache` all
exclude it — contradicting the claim that `k` is a member of the
effective key set. -/
theorem C2_counterexample_membership_lost :
    addFrame (delFrame c2State 1) 1 c2r = .ok c2After
    ∧ (alookup c2After.replacements 1).isSome
    ∧ 1 ∉ getFrameNumbers c2After
    ∧ ¬ containsOf c2After 1
    ∧ lenOf c2After = 0
    ∧ 1 ∉ keysOf c2After := by
  refine ⟨rfl, by decide, by decide, by decide, by decide, ?_⟩
  intro h
  exact absurd ((Finset.mem_sort _).mp h) (by decide)

/-- Shared core for the amended C2: staging a record keyed `k` over a
state whose pending-delete set contains `k` serves the staged record to
`get` (ignoring the store) and to iteration, while excluding `k` from
the effective key set. -/
theorem staged_after_delete_facts (s2 : FramesState) (k : Int) (g : Frame)
    (hdb : s2.sample_in_db = true) (hda : s2.delete_all = false)
    (hv : isFrameNumber k = true) (hg : g.frame_number = k)
    (hkd : k ∈ s2.delete_frames) :
    alookup (setReplacement s2 g).replacements k = some g
    ∧ (∀ store2 : List Doc,
        getFrame { setReplacement s2 g with store := store2 } k =
          .ok (g, { setReplacement s2 g with store := store2 }))
    ∧ g ∈ (iterFrames (setReplacement s2 g)).1
    ∧ k ∈ (setReplacement s2 g).delete_frames
    ∧ k ∉ getFrameNumbers (setReplacement s2 g) := by
  have h1 : alookup (setReplacement s2 g).replacements k = some g := by
    show alookup (ainsert s2.replacements g.frame_number g) k = some g
    rw [hg]
    exact alookup_ainsert_self _ _ _
  refine ⟨h1, ?_, ?_, hkd, ?_⟩
  · intro store2
    unfold getFrame
    rw [if_neg (by simp [hv])]
    have h2 : alookup ({ setReplacement s2 g with
        store := store2 }).replacements k = some g := h1
    rw [h2]
  · exact iterFrames_replacement_yielded (setReplacement s2 g) k g hdb
      hda h1 (of_decide_eq_true hv)
  · unfold getFrameNumbers
    rw [if_neg (by simp [setReplacement, hdb, hda])]
    simp only [Finset.mem_sdiff]
    intro hmem
    exact hmem.2 hkd

/-- Claim C2, amended:  On a store-backed parent with no pending
delete-all, after `del(k)` followed by `set(k, r)` with no flush in
between, the staged replacement does win at *read* time: `get(k)`
returns it without consulting the store (the result is the same for
every store contents), iteration yields it, and `k` remains in the
pending-delete set so a flush deletes-then-rewrites it.  But — contrary
to the claim as stated — `k` is *not* a member of the effective key set:
`keys()`, `len` and `k in cache` all exclude `k`, because `set` does not
clear `k` from `pending_deletes` and `_get_frame_numbers` subtracts the
pending deletes after unioning in the replacement keys. -/
theorem C2_amended_replacement_wins_reads_only (s : FramesState)
    (k : Int) (r : Frame) (s' : FramesState)
    (hdb : s.sample_in_db = true) (hda : s.delete_all = false)
    (hv : isFrameNumber k = true)
    (h : addFrame (delFrame s k) k r = .ok s') :
    (∃ g, alookup s'.replacements k = some g
      ∧ (∀ store2 : List Doc, getFrame { s' with store := store2 } k =
          .ok (g, { s' with store := store2 }))
      ∧ g ∈ (iterFrames s').1)
    ∧ k ∈ s'.delete_frames
    ∧ k ∉ getFrameNumbers s' := by
  have hdel : delFrame s k =
      { s with replacements := aerase s.replacements k,
               delete_frames := insert k s.delete_frames } := by
    unfold delFrame
    rw [if_neg (by simp [hdb])]
  unfold addFrame at h
  rw [hdel] at h
  rw [if_neg (by simp [hv])] at h
  rw [if_pos (show ({ s with
      replacements := aerase s.replacements k,
      delete_frames := insert k s.delete_frames } :
        FramesState).sample_in_db = true from hdb)] at h
  by_cases hr : r.inDb = true
  · rw [if_pos hr, if_pos hr] at h
    simp only [Except.ok.injEq] at h
    subst h
    obtain ⟨h1, h2, h3, h4, h5⟩ := staged_after_delete_facts
      { s with replacements := aerase s.replacements k,
               delete_frames := insert k s.delete_frames,
               nextId := s.nextId + 1 }
      k
      (setBackingDoc ⟨s.nextId, .frame, none, 0, [], false⟩
        ⟨none, k, copyFields r.fields⟩)
      hdb hda hv rfl (Finset.mem_insert_self k s.delete_frames)
    exact ⟨⟨_, h1, h2, h3⟩, h4, h5⟩
  · rw [if_neg hr, if_neg hr] at h
    simp only [Except.ok.injEq] at h
    subst h
    obtain ⟨h1, h2, h3, h4, h5⟩ := staged_after_delete_facts
      { s with replacements := aerase s.replacements k,
               delete_frames := insert k s.delete_frames }
      k (setBackingDoc r ⟨none, k, copyFields r.fields⟩)
      hdb hda hv rfl (Finset.mem_insert_self k s.delete_frames)
    exact ⟨⟨_, h1, h2, h3⟩, h4, h5⟩

/-- Witness for the amended C2, on the concrete counterexample state. -/
theorem C2_amended_replacement_wins_reads_only_witness :
    (∃ g, alookup c2After.replacements 1 = some g
      ∧ (∀ store2 : List Doc, getFrame { c2After with store := store2 } 1 =
          .ok (g, { c2After with store := store2 }))
      ∧ g ∈ (iterFrames c2After).1)
    ∧ 1 ∈ c2After.delete_frames
    ∧ 1 ∉ getFrameNumbers c2After :=
  C2_amended_replacement_wins_reads_only c2State 1 c2r c2After
    (by decide) (by decide) (by decide) rfl

/-! ## C3: flush reconciles edits across live in-memory holders -/

/-- Claim C3: When a cache instance B over a store-backed parent has an
empty pending map but a sibling instance A has staged `set(1, r)` (so
the live singleton registry holds A's transient record `r` keyed 1),
B's `save()` still persists A's record: the write phase gathers the
union of B's pending replacements and the live in-memory records for the
parent, inserts `r`'s dict with a fresh store id, and clears the pending
state — A's edit is not silently dropped. -/
theorem C3_flush_reconciles_siblings (s : FramesState) (r : Frame)
    (hdb : s.sample_in_db = true) (hrepl : s.replacements = [])
    (hda : s.delete_all = false) (hdf : s.delete_frames = ∅)
    (hreg : s.registry = [(1, r)]) (hr1 : r.frame_number = 1)
    (hrdb : r.inDb = false) :
    saveFrames s successOracle =
      .ok { s with replacements := [],
                   store := s.store ++ [⟨some s.nextDocId, 1, r.fields⟩],
                   nextDocId := s.nextDocId + 1 } := by
  have hd : saveDeletions s successOracle = .ok s := by
    unfold saveDeletions
    simp [hda, hdf]
  have hsf : saveFrames s successOracle =
      saveReplacements s successOracle true := by
    unfold saveFrames
    rw [if_neg (by simp [hdb]), hd]
  rw [hsf]
  have hpu : pendingUnion s true = [(1, r)] := by
    unfold pendingUnion
    rw [if_pos ⟨rfl, by simp [hreg]⟩, hreg, hrepl]
    rfl
  have hnf : newFramesOf [(1, r)] = [r] := by
    unfold newFramesOf
    simp [hrdb]
  have her : aerase [(1, r)] r.frame_number = [] := by
    rw [hr1]
    simp [aerase]
  unfold saveReplacements
  simp only [hpu, hnf, her, successOracle, insertDocs, makeDict,
    List.map_cons, List.map_nil, List.enum, List.enumFrom,
    List.foldl_cons, List.foldl_nil, List.length_cons, List.length_nil]
  rw [if_neg (by simp), if_neg (by simp)]
  simp [hreg, hr1]

/-- Sibling instance A's staged transient record for key 1 (C3). -/
def c3r : Frame := ⟨21, .frame, none, 1, [("lbl", 4)], false⟩

/-- Witness for C3: instance B (empty pending map) over a parent whose
registry holds sibling A's staged record for key 1. -/
theorem C3_flush_reconciles_siblings_witness :
    saveFrames
      { replacements := [], delete_frames := ∅, delete_all := false,
        sample_in_db := true, store := [], registry := [(1, c3r)],
        nextId := 30, nextDocId := 40 } successOracle =
      .ok { replacements := [], delete_frames := ∅, delete_all := false,
            sample_in_db := true, store := [⟨some 40, 1, c3r.fields⟩],
            registry := [(1, c3r)], nextId := 30, nextDocId := 41 } :=
  C3_flush_reconciles_siblings
    { replacements := [], delete_frames := ∅, delete_all := false,
      sample_in_db := true, store := [], registry := [(1, c3r)],
      nextId := 30, nextDocId := 40 } c3r
    (by decide) rfl rfl rfl rfl (by decide) (by decide)

/-! ## C4: `clear(); set(k, r); save()` leaves exactly key `k` -/

/-- Flushing a state in the post-`clear(); set(k, g)` shape (delete-all
pending, exactly one staged transient record keyed `k`): the deletion
phase empties the store slice and invalidates the live holders, the
write phase inserts only `g`, so the store ends up holding exactly the
one record for `k`. -/
theorem save_after_clear_set (s1 : FramesState) (k : Int) (g : Frame)
    (hdb : s1.sample_in_db = true) (hda : s1.delete_all = true)
    (hrepl : s1.replacements = [(k, g)]) (hg : g.frame_number = k)
    (hgdb : g.inDb = false) :
    saveFrames s1 successOracle =
      .ok { s1 with
              replacements := [],
              delete_all := false,
              delete_frames := ∅,
              store := [⟨some s1.nextDocId, k, g.fields⟩],
              registry := [],
              nextDocId := s1.nextDocId + 1 } := by
  have hd : saveDeletions s1 successOracle =
      .ok { s1 with
              store := [],
              registry := [],
              delete_all := false,
              delete_frames := ∅ } := by
    unfold saveDeletions
    simp [hda]
  have hsf : saveFrames s1 successOracle =
      saveReplacements
        { s1 with
            store := [],
            registry := [],
            delete_all := false,
            delete_frames := ∅ } successOracle true := by
    unfold saveFrames
    rw [if_neg (by simp [hdb]), hd]
  rw [hsf]
  have hpu : pendingUnion
      { s1 with
          store := [],
          registry := [],
          delete_all := false,
          delete_frames := ∅ } true = [(k, g)] := by
    unfold pendingUnion
    simp [hrepl]
  have hnf : newFramesOf [(k, g)] = [g] := by
    unfold newFramesOf
    simp [hgdb]
  have her : aerase [(k, g)] g.frame_number = [] := by
    rw [hg]
    simp [aerase]
  unfold saveReplacements
  simp only [hpu, hnf, her, successOracle, insertDocs, makeDict,
    List.map_cons, List.map_nil, List.enum, List.enumFrom,
    List.foldl_cons, List.foldl_nil, List.length_cons, List.length_nil]
  rw [if_neg (by simp), if_neg (by simp)]
  simp [hg]

/-- Claim C4: For a store-backed parent with arbitrary prior store
contents, `clear(); set(k, r); save()` leaves the store containing
exactly one record for this parent, keyed `k`: the delete-all issued in
the deletion phase removes every previously stored key (and invalidates
the live in-memory holders, so none is resurrected by the
reconciliation step) and the write phase persists only `k`. -/
theorem C4_clear_set_save_leaves_only_k (s : FramesState) (k : Int)
    (r : Frame) (hdb : s.sample_in_db = true)
    (hv : isFrameNumber k = true) :
    ∃ s1 s2, addFrame (clearFrames s) k r = .ok s1
      ∧ saveFrames s1 successOracle = .ok s2
      ∧ s2.store.map (fun d => d.frame_number) = [k]
      ∧ s2.replacements = [] ∧ s2.delete_all = false
      ∧ s2.delete_frames = ∅ := by
  have hclear : clearFrames s =
      { s with
          replacements := [],
          delete_all := true,
          delete_frames := ∅ } := by
    unfold clearFrames
    rw [if_neg (by simp [hdb])]
  by_cases hr : r.inDb = true
  · have hadd : addFrame (clearFrames s) k r = .ok (setReplacement
        { s with
            replacements := [],
            delete_all := true,
            delete_frames := ∅,
            nextId := s.nextId + 1 }
        (setBackingDoc ⟨s.nextId, .frame, none, 0, [], false⟩
          ⟨none, k, copyFields r.fields⟩)) := by
      unfold addFrame
      rw [hclear, if_neg (by simp [hv])]
      rw [if_pos (show ({ s with
            replacements := [],
            delete_all := true,
            delete_frames := ∅ } :
          FramesState).sample_in_db = true from hdb)]
      rw [if_pos hr, if_pos hr]
    exact ⟨_, _, hadd,
      save_after_clear_set _ k _ hdb rfl rfl rfl rfl,
      by simp, rfl, rfl, rfl⟩
  · have hadd : addFrame (clearFrames s) k r = .ok (setReplacement
        { s with
            replacements := [],
            delete_all := true,
            delete_frames := ∅ }
        (setBackingDoc r ⟨none, k, copyFields r.fields⟩)) := by
      unfold addFrame
      rw [hclear, if_neg (by simp [hv])]
      rw [if_pos (show ({ s with
            replacements := [],
            delete_all := true,
            delete_frames := ∅ } :
          FramesState).sample_in_db = true from hdb)]
      rw [if_neg hr, if_neg hr]
    exact ⟨_, _, hadd,
      save_after_clear_set _ k _ hdb rfl rfl rfl rfl,
      by simp, rfl, rfl, rfl⟩

/-- Witness for C4, on the scenario state (store keys `{1,3,5}`): after
`clear(); set(4, c8Input); save()` the store holds exactly key 4. -/
theorem C4_clear_set_save_leaves_only_k_witness :
    ∃ s1 s2, addFrame (clearFrames scenarioState) 4 c8Input = .ok s1
      ∧ saveFrames s1 successOracle = .ok s2
      ∧ s2.store.map (fun d => d.frame_number) = [4]
      ∧ s2.replacements = [] ∧ s2.delete_all = false
      ∧ s2.delete_frames = ∅ :=
  C4_clear_set_save_leaves_only_k scenarioState 4 c8Input (by decide)
    (by decide)

/-! ## C5: error surfacing of failing flush bulk writes

Only `insert_many` is wrapped in a `try` that re-raises
`ValueError(bwe.details["writeErrors"][0]["errmsg"])`; the `bulk_write`
of `ReplaceOne`s (and of `DeleteOne`s) has no such wrapper, so its
failure propagates as the raw bulk-write error.  The claim as stated —
*any* failing bulk write surfaces as a single aggregated error
identifying the first underlying write error — is therefore false on the
code. -/

/-- The already-persisted pending record of the C5 counterexample. -/
def c5fin : Frame := ⟨3, .frame, some 7, 1, [("y", 2)], true⟩

/-- A store-backed state whose only pending record is store-backed, so a
flush issues exactly one bulk replace. -/
def c5State : FramesState where
  replacements := [(1, c5fin)]
  delete_frames := ∅
  delete_all := false
  sample_in_db := true
  store := [⟨some 7, 1, []⟩]
  registry := []
  nextId := 4
  nextDocId := 8

/-- An oracle failing the bulk replace with one write error `"boom"`. -/
def c5Oracle : StoreOracle := ⟨none, none, some ("boom", [])⟩

/-- Counterexample to C5 as stated:  When the bulk replace issued by
`save()` fails, the raised error is the raw bulk-write error, not a
`ValueError` carrying the first underlying write-error message — for no
message `msg` does the raised error equal `ValueError msg`.  (The
pending replacements are indeed preserved: the error state is the
pre-flush state.) -/
theorem C5_counterexample_replace_failure_not_wrapped :
    saveFrames c5State c5Oracle =
      .error (.bulkWriteError ["boom"], c5State)
    ∧ ∀ msg : String, Err.bulkWriteError ["boom"] ≠ Err.valueError msg :=
  ⟨rfl, fun _ h => Err.noConfusion h⟩

/-- Claim C5, amended:  With no pending deletions, (i) when the batched
insert of never-persisted records fails, `save()` raises a single
`ValueError` carrying the *first* underlying write-error message, and
the state — in particular the pending replacements map — is exactly the
pre-flush state, so the caller can re-flush; (ii) when there are no
records to insert and the batched replace fails, `save()` raises the raw
bulk-write error (not the wrapped first-message error), and the state is
likewise unchanged. -/
theorem C5_amended_flush_failure_surfacing :
    (∀ (s : FramesState) (o : StoreOracle) (m : String)
        (ms : List String),
      s.sample_in_db = true → s.delete_all = false →
      s.delete_frames = ∅ → o.insertResult = some (m, ms) →
      newFramesOf (pendingUnion s true) ≠ [] →
      saveFrames s o = .error (.valueError m, s))
    ∧ (∀ (s : FramesState) (o : StoreOracle) (m : String)
        (ms : List String),
      s.sample_in_db = true → s.delete_all = false →
      s.delete_frames = ∅ → o.replaceResult = some (m, ms) →
      newFramesOf (pendingUnion s true) = [] →
      pendingUnion s true ≠ [] →
      saveFrames s o = .error (.bulkWriteError (m :: ms), s)) := by
  constructor
  · intro s o m ms hdb hda hdf hio hnf
    have hpne : pendingUnion s true ≠ [] := by
      intro he
      rw [he] at hnf
      exact hnf rfl
    have hd : saveDeletions s o = .ok s := by
      unfold saveDeletions
      simp [hda, hdf]
    have hsf : saveFrames s o = saveReplacements s o true := by
      unfold saveFrames
      rw [if_neg (by simp [hdb]), hd]
    rw [hsf]
    unfold saveReplacements
    simp only [hio]
    rw [if_neg hpne, if_neg hnf]
  · intro s o m ms hdb hda hdf hio hnf hpne
    have hd : saveDeletions s o = .ok s := by
      unfold saveDeletions
      simp [hda, hdf]
    have hsf : saveFrames s o = saveReplacements s o true := by
      unfold saveFrames
      rw [if_neg (by simp [hdb]), hd]
    rw [hsf]
    unfold saveReplacements
    simp only [hio, hnf, List.foldl_nil]
    rw [if_neg hpne, if_pos trivial]
    simp [hpne]

/-- The transient pending record of the C5 witness's insert-failure
state. -/
def c5tr : Frame := ⟨5, .frame, none, 2, [("z", 1)], false⟩

/-- The C5 witness's insert-failure state: one transient pending
record. -/
def c5State2 : FramesState := { c5State with replacements := [(2, c5tr)] }

/-- An oracle failing the batched insert with first message
`"ins-err"`. -/
def c5Oracle2 : StoreOracle := ⟨none, some ("ins-err", ["other"]), none⟩

/-- Witness for the amended C5: a failing insert surfaces as
`ValueError "ins-err"` (the first of the two write errors) with the
state unchanged; a failing replace surfaces as the raw bulk-write
error with the state unchanged. -/
theorem C5_amended_flush_failure_surfacing_witness :
    saveFrames c5State2 c5Oracle2 =
      .error (.valueError "ins-err", c5State2)
    ∧ saveFrames c5State c5Oracle =
      .error (.bulkWriteError ["boom"], c5State) :=
  ⟨C5_amended_flush_failure_surfacing.1 c5State2 c5Oracle2 "ins-err"
    ["other"] (by decide) (by decide) (by decide) (by decide)
    (by decide),
   C5_amended_flush_failure_surfacing.2 c5State c5Oracle "boom" []
    (by decide) (by decide) (by decide) (by decide) (by decide)
    (by decide)⟩

end Fiftyone
